import Mathlib

/-
  Verification development for the transcript segmentation and clip-boundary
  quality engine of `ai_clipper.py` (Tiktod Batch Downloader).

  The Python functions are embedded shallowly:
  * times are rationals (the source uses floating point arithmetic only on
    values produced by additions, subtractions, comparisons and division,
    which we model exactly over `ℚ`);
  * Python `str.strip()`, `str.lower()`, `str.startswith()`, `str.endswith()`
    are modelled over `List Char`;
  * Python `None` becomes `Option`, dictionaries become structures with the
    fields the engine reads, and `sorted` / `list.sort` (stable sorts) become
    stable insertion sort.
-/

namespace AiClipper

/-- Python `str.strip()` restricted to whitespace, over the character list. -/
def pyStrip (s : List Char) : List Char :=
  ((s.dropWhile Char.isWhitespace).reverse.dropWhile Char.isWhitespace).reverse

/-- Python `str.lower()` over the character list (ASCII case folding). -/
def pyLower (s : List Char) : List Char := s.map Char.toLower

/-- Python `a.startswith(b)`. -/
def pyStartsWith (s pat : List Char) : Bool := pat.isPrefixOf s

/-- Python `a.endswith(b)`. -/
def pyEndsWith (s pat : List Char) : Bool := pat.isSuffixOf s

/-- One transcript/subtitle segment `{'start': …, 'end': …, 'text': …}`.
    The Python key `end` is called `stop` here (`end` is reserved in Lean). -/
structure Segment where
  start : ℚ
  stop : ℚ
  text : String
deriving DecidableEq, Repr, Inhabited

/-- `min_gap = 0.2` in `process_subtitle_segments`. -/
def min_gap : ℚ := 1/5

/-- `min_duration = 0.8` in `process_subtitle_segments`. -/
def min_duration : ℚ := 4/5

/-- The "check overlap with next subtitle" step of `process_subtitle_segments`:
    given the (possibly already pushed) start, the (possibly extended) end and
    the raw tail of the sorted segment list, pull the end back before the next
    raw segment's start minus the gap, but never below `start + min_duration`. -/
def adjustEndForNext (startTime endTime : ℚ) : List Segment → ℚ
  | [] => endTime
  | nxt :: _ =>
    if endTime > nxt.start - min_gap then
      (if nxt.start - min_gap > startTime + min_duration then nxt.start - min_gap
       else startTime + min_duration)
    else endTime

/-- The main loop of `process_subtitle_segments`: the first argument is the
    last cue appended to `processed` (if any), the second the remaining raw
    (sorted) segments. -/
def procAux : Option Segment → List Segment → List Segment
  | _, [] => []
  | none, seg :: rest =>
    let startTime := seg.start
    let endTime := if seg.stop - startTime < min_duration then startTime + min_duration else seg.stop
    let c : Segment := ⟨startTime, adjustEndForNext startTime endTime rest, seg.text⟩
    c :: procAux (some c) rest
  | some prev, seg :: rest =>
    let startTime := seg.start
    let endTime := if seg.stop - startTime < min_duration then startTime + min_duration else seg.stop
    if startTime < prev.stop + min_gap then
      (if prev.stop + min_gap < endTime then
        let c : Segment := ⟨prev.stop + min_gap, adjustEndForNext (prev.stop + min_gap) endTime rest, seg.text⟩
        c :: procAux (some c) rest
      else procAux (some prev) rest)
    else
      let c : Segment := ⟨startTime, adjustEndForNext startTime endTime rest, seg.text⟩
      c :: procAux (some c) rest

/-- `process_subtitle_segments`: sort by start time (Python `sorted` is a
    stable sort keyed on `start`), then run the overlap/gap-resolution loop. -/
def process_subtitle_segments (segments : List Segment) : List Segment :=
  procAux none (List.insertionSort (fun a b => a.start ≤ b.start) segments)

/-- Gap invariant between two consecutive cues: the earlier one ends at least
    `min_gap` before the later one starts. -/
def cueGapOK (a b : Segment) : Prop := a.stop + min_gap ≤ b.start

/-- Relation used by the amended minimum-duration claim: a cue either keeps the
    minimum duration or its start was pushed to exactly `prev.stop + min_gap`. -/
def cueDurOK (a b : Segment) : Prop :=
  min_duration ≤ b.stop - b.start ∨ b.start = a.stop + min_gap

lemma chain_procAux_gap (l : List Segment) : ∀ p : Segment, List.Chain cueGapOK p (procAux (some p) l) := by
  induction l with
  | nil => intro p; exact List.Chain.nil
  | cons seg rest ih =>
    intro p
    simp only [procAux]
    split_ifs <;>
      first
        | exact ih _
        | exact List.Chain.cons (le_refl _) (ih _)
        | exact List.Chain.cons (not_lt.mp (by assumption)) (ih _)

lemma chain'_procAux_gap (l : List Segment) : (procAux none l).Chain' cueGapOK := by
  cases l with
  | nil => exact trivial
  | cons seg rest =>
    show List.Chain cueGapOK _ _
    exact chain_procAux_gap rest _

/-- C1: for every input segment list, the cue sequence returned by
    `process_subtitle_segments` satisfies the gap invariant: for every pair of
    consecutive output cues, `cue[i].stop + min_gap ≤ cue[i+1].start`. -/
theorem C1_process_subtitle_segments_gap_invariant (segments : List Segment) :
    (process_subtitle_segments segments).Chain' cueGapOK := by
  unfold process_subtitle_segments
  exact chain'_procAux_gap _

lemma min_duration_pos : (0:ℚ) < min_duration := by norm_num [min_duration]

lemma endTime_ge (seg : Segment) :
    seg.start + min_duration ≤
      (if seg.stop - seg.start < min_duration then seg.start + min_duration else seg.stop) := by
  split_ifs with h
  · exact le_refl _
  · linarith

lemma adjustEnd_ge_min (st en : ℚ) (rest : List Segment) (h : st + min_duration ≤ en) :
    st + min_duration ≤ adjustEndForNext st en rest := by
  cases rest with
  | nil => exact h
  | cons nxt tail =>
    simp only [adjustEndForNext]
    split_ifs with h1 h2
    · exact le_of_lt h2
    · exact le_refl _
    · exact h

lemma adjustEnd_gt (st en : ℚ) (rest : List Segment) (h : st < en) :
    st < adjustEndForNext st en rest := by
  cases rest with
  | nil => exact h
  | cons nxt tail =>
    simp only [adjustEndForNext]
    split_ifs with h1 h2
    · linarith [min_duration_pos]
    · linarith [min_duration_pos]
    · exact h

lemma procAux_pos (l : List Segment) : ∀ p : Option Segment, ∀ c ∈ procAux p l, 0 < c.stop - c.start := by
  induction l with
  | nil => intro p c hc; simp [procAux] at hc
  | cons seg rest ih =>
    intro p c hc
    cases p with
    | none =>
      simp only [procAux] at hc
      have hge := endTime_ge seg
      rcases List.mem_cons.mp hc with h | h
      · subst h
        have := adjustEnd_gt seg.start _ rest (by linarith [min_duration_pos] : seg.start < _)
        simpa using by linarith
      · exact ih _ c h
    | some prev =>
      simp only [procAux] at hc
      have hge := endTime_ge seg
      set en := (if seg.stop - seg.start < min_duration then seg.start + min_duration else seg.stop) with hen
      split_ifs at hc with h1 h2
      · rcases List.mem_cons.mp hc with h | h
        · subst h
          have := adjustEnd_gt (prev.stop + min_gap) en rest h2
          simpa using by linarith
        · exact ih _ c h
      · exact ih _ c hc
      · rcases List.mem_cons.mp hc with h | h
        · subst h
          have := adjustEnd_gt seg.start en rest (by linarith [min_duration_pos])
          simpa using by linarith
        · exact ih _ c h

lemma chain_procAux_dur (l : List Segment) : ∀ p : Segment, List.Chain cueDurOK p (procAux (some p) l) := by
  induction l with
  | nil => intro p; exact List.Chain.nil
  | cons seg rest ih =>
    intro p
    simp only [procAux]
    have hge := endTime_ge seg
    set en := (if seg.stop - seg.start < min_duration then seg.start + min_duration else seg.stop) with hen
    split_ifs with h1 h2
    · exact List.Chain.cons (Or.inr rfl) (ih _)
    · exact ih p
    · refine List.Chain.cons (Or.inl ?_) (ih _)
      have h := adjustEnd_ge_min seg.start en rest hge
      show min_duration ≤ _ - _
      simpa using by linarith

/-- C2 (amended): every output cue of `process_subtitle_segments` has strictly
    positive duration; the first cue always has duration at least
    `min_duration`; and every later cue either has duration at least
    `min_duration` or had its start pushed forward to exactly
    `previous.stop + min_gap` to restore the minimum gap. -/
theorem C2_process_subtitle_segments_duration_amended (segments : List Segment) :
    (∀ c ∈ process_subtitle_segments segments, 0 < c.stop - c.start) ∧
    (∀ c, (process_subtitle_segments segments).head? = some c → min_duration ≤ c.stop - c.start) ∧
    (process_subtitle_segments segments).Chain' cueDurOK := by
  unfold process_subtitle_segments
  refine ⟨procAux_pos _ none, ?_, ?_⟩
  · intro c hc
    cases hl : List.insertionSort (fun a b => a.start ≤ b.start) segments with
    | nil => rw [hl] at hc; simp [procAux] at hc
    | cons seg rest =>
      rw [hl] at hc
      simp only [procAux, List.head?_cons, Option.some.injEq] at hc
      subst hc
      have hge := endTime_ge seg
      have h := adjustEnd_ge_min seg.start _ rest hge
      simpa using by linarith [min_duration_pos]
  · cases hl : List.insertionSort (fun a b => a.start ≤ b.start) segments with
    | nil => simp [procAux]
    | cons seg rest =>
      show List.Chain cueDurOK _ _
      exact chain_procAux_dur rest _

/-- C2 (witness): the amended statement applied to the counterexample input;
    the first output cue `[0, 0.8]` reaches the minimum duration. -/
theorem C2_process_subtitle_segments_duration_amended_witness :
    min_duration ≤ (Segment.mk 0 (4/5) "a").stop - (Segment.mk 0 (4/5) "a").start :=
  (C2_process_subtitle_segments_duration_amended [⟨0, 1, "a"⟩, ⟨1/2, 3/2, "b"⟩]).2.1
    ⟨0, 4/5, "a"⟩
    (by norm_num [process_subtitle_segments, List.insertionSort, List.orderedInsert,
      procAux, adjustEndForNext, min_gap, min_duration])

/-- C2 (counterexample): on the input `[{start 0, end 1}, {start 0.5, end 1.5}]`
    the second output cue is `[1, 1.5]`: its start was pushed forward to
    restore the minimum gap, it was not dropped, and its duration `0.5` is
    below `min_duration = 0.8` even though no clip-edge truncation is
    involved (`process_subtitle_segments` has no clip-edge notion at all). -/
theorem C2_counterexample :
    process_subtitle_segments [⟨0, 1, "a"⟩, ⟨1/2, 3/2, "b"⟩] =
      [⟨0, 4/5, "a"⟩, ⟨1, 3/2, "b"⟩] ∧ (3:ℚ)/2 - 1 < min_duration := by
  constructor
  · norm_num [process_subtitle_segments, List.insertionSort, List.orderedInsert,
      procAux, adjustEndForNext, min_gap, min_duration]
  · norm_num [min_duration]

/-- Helper loop of `find_segment_index`: index of the first segment containing
    the query time, relative to the front of the list. -/
def findSegAux (t : ℚ) : List Segment → Option ℕ
  | [] => none
  | s :: rest => if s.start ≤ t ∧ t ≤ s.stop then some 0 else (findSegAux t rest).map (· + 1)

/-- `find_segment_index`: first `i` with `segments[i].start ≤ t ≤ segments[i].end`,
    `None` when no segment contains `t`. -/
def find_segment_index (ts : List Segment) (t : ℚ) : Option ℕ := findSegAux t ts

/-- The hardcoded `good_starters` marker list of `is_good_starting_boundary`
    and `assess_boundary_quality`. -/
def good_starters : List String :=
  ["jadi", "nah", "oke", "baik", "sekarang", "mari", "ayo",
   "pertama", "kedua", "selanjutnya", "berikutnya",
   "jadi begini", "nah begini", "oke begini",
   "pertama-tama", "yang pertama", "yang kedua"]

/-- The hardcoded `good_enders` marker list of `is_good_ending_boundary`
    and `assess_boundary_quality`. -/
def good_enders : List String :=
  ["jadi", "nah", "oke", "baik", "begitu", "demikian",
   "itulah", "begitulah", "demikianlah", "sekian",
   "terima kasih", "sampai jumpa", "selamat tinggal",
   "jadi begitulah", "nah begitulah", "oke begitulah"]

/-- `is_good_starting_boundary`: the segment's stripped text starts with a
    configured start marker (case-insensitively), or the gap to the previous
    segment exceeds 1.5 seconds. -/
def is_good_starting_boundary (ts : List Segment) (i : ℕ) : Bool :=
  let seg := ts.getD i default
  let text := pyStrip seg.text.data
  if good_starters.any (fun st => pyStartsWith (pyLower text) (pyLower st.data)) then true
  else if 0 < i then
    decide (seg.start - (ts.getD (i - 1) default).stop > 3/2)
  else false

/-- `is_good_ending_boundary`: the segment's stripped text ends with a
    configured end marker (case-insensitively), or the gap to the next
    segment exceeds 1.5 seconds. -/
def is_good_ending_boundary (ts : List Segment) (i : ℕ) : Bool :=
  let seg := ts.getD i default
  let text := pyStrip seg.text.data
  if good_enders.any (fun en => pyEndsWith (pyLower text) (pyLower en.data)) then true
  else if i < ts.length - 1 then
    decide ((ts.getD (i + 1) default).start - seg.stop > 3/2)
  else false

/-- Python `range(idx, max(0, idx - 3), -1)`: the indices scanned backward by
    `find_better_start_boundary`, in scan order. -/
def windowBack (idx : ℕ) : List ℕ := (List.range' (idx - min idx 3 + 1) (min idx 3)).reverse

/-- Python `range(idx, min(len, idx + 3))`: the indices scanned forward by
    `find_better_end_boundary`, in scan order. -/
def windowFwd (idx len : ℕ) : List ℕ := List.range' idx (min (len - idx) 3)

/-- `find_better_start_boundary`: for a non-edge index, the start of the first
    good starting segment in the backward window, otherwise the original time. -/
def find_better_start_boundary (ts : List Segment) (idx : ℕ) (orig : ℚ) : ℚ :=
  if idx = 0 then orig
  else
    match (windowBack idx).find? (is_good_starting_boundary ts) with
    | some i => (ts.getD i default).start
    | none => orig

/-- `find_better_end_boundary`: for a non-edge index, the end of the first
    good ending segment in the forward window, otherwise the original time. -/
def find_better_end_boundary (ts : List Segment) (idx : ℕ) (orig : ℚ) : ℚ :=
  if ts.length - 1 ≤ idx then orig
  else
    match (windowFwd idx ts.length).find? (is_good_ending_boundary ts) with
    | some i => (ts.getD i default).stop
    | none => orig

/-- One AI candidate `{'start_time': …, 'end_time': …}` (only the fields the
    boundary refiner reads). -/
structure ClipInfo where
  start_time : ℚ
  end_time : ℚ
deriving DecidableEq, Repr

/-- One refined candidate as produced by `validate_and_improve_boundaries`
    (the fields the refinement step writes). -/
structure ImprovedClip where
  start_time : ℚ
  end_time : ℚ
  original_start : ℚ
  original_end : ℚ
  boundary_improved : Bool
deriving DecidableEq, Repr

/-- `validate_and_improve_boundaries`: drop candidates whose start or end time
    resolves to no segment; for the rest, improve both boundaries, record the
    original times, and set `boundary_improved` (the source sets it to `True`
    unconditionally). -/
def validate_and_improve_boundaries (ts : List Segment) : List ClipInfo → List ImprovedClip
  | [] => []
  | ci :: rest =>
    match find_segment_index ts ci.start_time, find_segment_index ts ci.end_time with
    | some si, some ei =>
      { start_time := find_better_start_boundary ts si ci.start_time
        end_time := find_better_end_boundary ts ei ci.end_time
        original_start := ci.start_time
        original_end := ci.end_time
        boundary_improved := true } :: validate_and_improve_boundaries ts rest
    | _, _ => validate_and_improve_boundaries ts rest

/-- The example transcript of the specification:
    `[{0, 2, "Jadi begini ceritanya."}, {2.2, 5, "Sangat menyentuh."}, {7, 9, "Akhir cerita."}]`. -/
def exTranscript : List Segment :=
  [⟨0, 2, "Jadi begini ceritanya."⟩, ⟨11/5, 5, "Sangat menyentuh."⟩, ⟨7, 9, "Akhir cerita."⟩]

lemma findSegAux_spec (t : ℚ) (l : List Segment) :
    (∀ i, findSegAux t l = some i →
      i < l.length ∧ (l.getD i default).start ≤ t ∧ t ≤ (l.getD i default).stop) ∧
    (findSegAux t l = none → ∀ s ∈ l, ¬(s.start ≤ t ∧ t ≤ s.stop)) := by
  induction l with
  | nil =>
    refine ⟨fun i h => by simp [findSegAux] at h, fun _ s hs => by cases hs⟩
  | cons a rest ih =>
    constructor
    · intro i h
      simp only [findSegAux] at h
      split_ifs at h with hc
      · cases h
        exact ⟨Nat.succ_pos _, hc.1, hc.2⟩
      · rcases Option.map_eq_some'.mp h with ⟨j, hj, rfl⟩
        obtain ⟨hlen, h1, h2⟩ := ih.1 j hj
        refine ⟨by simpa using Nat.succ_lt_succ hlen, ?_, ?_⟩
        · rw [List.getD_cons_succ]; exact h1
        · rw [List.getD_cons_succ]; exact h2
    · intro h s hs
      simp only [findSegAux] at h
      split_ifs at h with hc
      rcases List.mem_cons.mp hs with rfl | hs'
      · exact hc
      · exact ih.2 (Option.map_eq_none'.mp h) s hs'

/-- C7: `find_segment_index` returns either an in-range index `i` with
    `segments[i].start ≤ t ≤ segments[i].end`, or `none` when no segment
    contains `t`; it never returns an out-of-range index. -/
theorem C7_find_segment_index_sound (ts : List Segment) (t : ℚ) :
    (∀ i, find_segment_index ts t = some i →
      i < ts.length ∧ (ts.getD i default).start ≤ t ∧ t ≤ (ts.getD i default).stop) ∧
    (find_segment_index ts t = none → ∀ s ∈ ts, ¬(s.start ≤ t ∧ t ≤ s.stop)) :=
  findSegAux_spec t ts

/-- C7 (witness): on the specification's example transcript, the query time
    `1.9` resolves to index `0`, which is in range and contains `1.9`. -/
theorem C7_find_segment_index_sound_witness :
    0 < exTranscript.length ∧ (exTranscript.getD 0 default).start ≤ 19/10 ∧
      (19:ℚ)/10 ≤ (exTranscript.getD 0 default).stop :=
  (C7_find_segment_index_sound exTranscript (19/10)).1 0
    (by norm_num [find_segment_index, findSegAux, exTranscript])

/-- C8: `find_better_start_boundary` returns either the start of a segment in
    the backward window that is a good starting boundary (configured marker or
    preceding gap above 1.5 s), or the original time unchanged; symmetrically
    for `find_better_end_boundary`; and at the edge of the sequence (index 0
    for start, last index for end) the original time is always returned. -/
theorem C8_find_better_boundaries_conservative (ts : List Segment) (idx : ℕ) (orig : ℚ) :
    (find_better_start_boundary ts idx orig = orig ∨
      ∃ i ∈ windowBack idx, is_good_starting_boundary ts i = true ∧
        find_better_start_boundary ts idx orig = (ts.getD i default).start) ∧
    (find_better_end_boundary ts idx orig = orig ∨
      ∃ i ∈ windowFwd idx ts.length, is_good_ending_boundary ts i = true ∧
        find_better_end_boundary ts idx orig = (ts.getD i default).stop) ∧
    (idx = 0 → find_better_start_boundary ts idx orig = orig) ∧
    (ts.length ≤ idx + 1 → find_better_end_boundary ts idx orig = orig) := by
  refine ⟨?_, ?_, ?_, ?_⟩
  · unfold find_better_start_boundary
    split_ifs with h
    · exact Or.inl rfl
    · cases e : (windowBack idx).find? (is_good_starting_boundary ts) with
      | none => exact Or.inl rfl
      | some i => exact Or.inr ⟨i, List.mem_of_find?_eq_some e, List.find?_some e, rfl⟩
  · unfold find_better_end_boundary
    split_ifs with h
    · exact Or.inl rfl
    · cases e : (windowFwd idx ts.length).find? (is_good_ending_boundary ts) with
      | none => exact Or.inl rfl
      | some i => exact Or.inr ⟨i, List.mem_of_find?_eq_some e, List.find?_some e, rfl⟩
  · intro h; simp [find_better_start_boundary, h]
  · intro h; unfold find_better_end_boundary; rw [if_pos (by omega)]

/-- C8 (witness): the specification's example — the candidate start `1.9`
    resolves to segment index `0`, the edge of the sequence, so the start
    boundary is returned unchanged. -/
theorem C8_find_better_boundaries_conservative_witness :
    find_segment_index exTranscript (19/10) = some 0 ∧
      find_better_start_boundary exTranscript 0 (19/10) = 19/10 :=
  ⟨by norm_num [find_segment_index, findSegAux, exTranscript],
   (C8_find_better_boundaries_conservative exTranscript 0 (19/10)).2.2.1 rfl⟩

/-- C3 (counterexample): the candidate `{start_time 1.9, end_time 8}` against
    the example transcript resolves to segment indices `0` and `2`; both
    boundaries are returned unchanged, yet `validate_and_improve_boundaries`
    still sets `boundary_improved := true` — the source sets the flag
    unconditionally, not as `(improvedStart ≠ originalStart) ||
    (improvedEnd ≠ originalEnd)`. -/
theorem C3_counterexample :
    validate_and_improve_boundaries exTranscript [⟨19/10, 8⟩] =
      [{ start_time := 19/10, end_time := 8, original_start := 19/10,
         original_end := 8, boundary_improved := true }] := by
  norm_num [validate_and_improve_boundaries, find_segment_index, findSegAux, exTranscript,
    find_better_start_boundary, find_better_end_boundary]

/-- C3 (amended): for every candidate whose start and end times each resolve
    to a segment index, the refinement step preserves `originalStart` and
    `originalEnd`, but sets `boundary_improved` to `true` unconditionally,
    even when both boundaries are returned unchanged. -/
theorem C3_validate_and_improve_boundaries_amended (ts : List Segment) (clips : List ClipInfo) :
    ∀ c ∈ validate_and_improve_boundaries ts clips,
      c.boundary_improved = true ∧
      ∃ ci ∈ clips, c.original_start = ci.start_time ∧ c.original_end = ci.end_time := by
  induction clips with
  | nil => intro c hc; simp [validate_and_improve_boundaries] at hc
  | cons ci rest ih =>
    intro c hc
    simp only [validate_and_improve_boundaries] at hc
    cases e1 : find_segment_index ts ci.start_time with
    | none =>
      rw [e1] at hc
      obtain ⟨hb, ci', hm, ho⟩ := ih c hc
      exact ⟨hb, ci', List.mem_cons_of_mem _ hm, ho⟩
    | some si =>
      cases e2 : find_segment_index ts ci.end_time with
      | none =>
        rw [e1, e2] at hc
        obtain ⟨hb, ci', hm, ho⟩ := ih c hc
        exact ⟨hb, ci', List.mem_cons_of_mem _ hm, ho⟩
      | some ei =>
        rw [e1, e2] at hc
        rcases List.mem_cons.mp hc with rfl | h
        · exact ⟨rfl, ci, List.mem_cons_self _ _, rfl, rfl⟩
        · obtain ⟨hb, ci', hm, ho⟩ := ih c h
          exact ⟨hb, ci', List.mem_cons_of_mem _ hm, ho⟩

/-- C3 (witness): the amended statement applied to the unchanged-boundaries
    candidate of the counterexample. -/
theorem C3_validate_and_improve_boundaries_amended_witness :
    ({ start_time := 19/10, end_time := 8, original_start := 19/10,
       original_end := 8, boundary_improved := true } : ImprovedClip).boundary_improved = true ∧
    ∃ ci ∈ [(⟨19/10, 8⟩ : ClipInfo)],
      ({ start_time := 19/10, end_time := 8, original_start := 19/10,
         original_end := 8, boundary_improved := true } : ImprovedClip).original_start = ci.start_time ∧
      ({ start_time := 19/10, end_time := 8, original_start := 19/10,
         original_end := 8, boundary_improved := true } : ImprovedClip).original_end = ci.end_time :=
  C3_validate_and_improve_boundaries_amended exTranscript [⟨19/10, 8⟩] _
    (by norm_num [validate_and_improve_boundaries, find_segment_index, findSegAux, exTranscript,
      find_better_start_boundary, find_better_end_boundary])

/-- Python `text.strip().endswith(('.', '!', '?', ':', ';'))`. -/
def endsWithTerminal (text : String) : Bool :=
  [".", "!", "?", ":", ";"].any (fun p => pyEndsWith (pyStrip text.data) p.data)

/-- `assess_content_completeness`: ratio of segments in `[startIdx, endIdx]`
    whose trimmed text ends in terminal punctuation, scaled to `0..10` and
    capped at 10; returns 0 when `startIdx >= endIdx` (the source comparison). -/
def assess_content_completeness (ts : List Segment) (startIdx endIdx : ℕ) : ℚ :=
  if endIdx ≤ startIdx then 0
  else
    let total := endIdx - startIdx + 1
    let k := (List.range' startIdx (endIdx + 1 - startIdx)).countP
      (fun i => decide (i < ts.length) && endsWithTerminal ((ts.getD i default).text))
    if 0 < total then min 10 ((k : ℚ) / (total : ℚ) * 10) else 0

/-- Specification-side count for the amended completeness claim: the number of
    indices in the inclusive range `[startIdx, endIdx]` whose segment text ends
    in terminal punctuation (no in-bounds guard). -/
def countTerminalIn (ts : List Segment) (startIdx endIdx : ℕ) : ℕ :=
  (List.range' startIdx (endIdx + 1 - startIdx)).countP
    (fun i => endsWithTerminal ((ts.getD i default).text))

/-- Marker bonus of `assess_boundary_quality`: `+3` when the stripped,
    lowercased text matches a configured start/end marker (a single bonus,
    the source loop breaks on the first match). -/
def marker_bonus (ts : List Segment) (i : ℕ) (btype : String) : ℤ :=
  if btype = "start" then
    (if good_starters.any
        (fun st => pyStartsWith (pyLower (pyStrip (ts.getD i default).text.data)) (pyLower st.data))
     then 3 else 0)
  else
    (if good_enders.any
        (fun en => pyEndsWith (pyLower (pyStrip (ts.getD i default).text.data)) (pyLower en.data))
     then 3 else 0)

/-- Pause bonus of `assess_boundary_quality`: `+2` for an adjacent gap above
    1.5 s, `+1` for a gap in `(0.5, 1.5]`, `0` otherwise or at the edge of the
    sequence. -/
def pause_bonus (ts : List Segment) (i : ℕ) (btype : String) : ℤ :=
  if btype = "start" then
    (if 0 < i then
      (let gap := (ts.getD i default).start - (ts.getD (i - 1) default).stop
       if gap > 3/2 then 2 else if gap > 1/2 then 1 else 0)
     else 0)
  else
    (if i < ts.length - 1 then
      (let gap := (ts.getD (i + 1) default).start - (ts.getD i default).stop
       if gap > 3/2 then 2 else if gap > 1/2 then 1 else 0)
     else 0)

/-- `assess_boundary_quality` (score component): 0 for an out-of-range index;
    otherwise base score 5, plus the marker bonus, plus the pause bonus,
    capped at 10.  The index is an integer because the source also guards
    against negative indices. -/
def assess_boundary_quality (ts : List Segment) (idx : ℤ) (btype : String) : ℤ :=
  if idx < 0 ∨ (ts.length : ℤ) ≤ idx then 0
  else
    let i := idx.toNat
    let text := pyStrip (ts.getD i default).text.data
    if btype = "start" then
      let s1 : ℤ := if good_starters.any (fun st => pyStartsWith (pyLower text) (pyLower st.data))
        then 5 + 3 else 5
      let s2 : ℤ := if 0 < i then
          (let gap := (ts.getD i default).start - (ts.getD (i - 1) default).stop
           if gap > 3/2 then s1 + 2 else if gap > 1/2 then s1 + 1 else s1)
        else s1
      min 10 s2
    else
      let s1 : ℤ := if good_enders.any (fun en => pyEndsWith (pyLower text) (pyLower en.data))
        then 5 + 3 else 5
      let s2 : ℤ := if i < ts.length - 1 then
          (let gap := (ts.getD (i + 1) default).start - (ts.getD i default).stop
           if gap > 3/2 then s1 + 2 else if gap > 1/2 then s1 + 1 else s1)
        else s1
      min 10 s2

/-- `assess_duration_appropriateness`: the piecewise duration score with a
    factor-2 penalty below `min_duration`, a factor-0.5 penalty above
    `max_duration`, and a floor of 5 inside the configured range. -/
def assess_duration_appropriateness (minD maxD : ℤ) (duration : ℚ) : ℚ :=
  if duration < (minD : ℚ) then max 0 (10 - ((minD : ℚ) - duration) * 2)
  else if (maxD : ℚ) < duration then max 0 (10 - (duration - (maxD : ℚ)) * (1/2))
  else
    let optimal_range := ((minD : ℚ) + (maxD : ℚ)) / 2
    max 5 (10 - |duration - optimal_range| * (1/2))

/-- C5 (counterexample): a single-segment range whose text ends in terminal
    punctuation scores `0`, not `10` — the source returns 0 for
    `start_idx >= end_idx`, not only for `start_idx > end_idx`. -/
theorem C5_counterexample :
    assess_content_completeness exTranscript 0 0 = 0 ∧
      endsWithTerminal ((exTranscript.getD 0 default).text) = true := by
  constructor
  · norm_num [assess_content_completeness]
  · decide

/-- C5 (amended): for in-range index pairs with `startIdx < endIdx` (strictly),
    `assess_content_completeness` returns `min 10 (10·k/n)` with
    `n = endIdx - startIdx + 1` and `k` the number of segments in the inclusive
    range whose trimmed text ends in terminal punctuation; it returns 0
    whenever `endIdx ≤ startIdx`, including the single-segment case. -/
theorem C5_assess_content_completeness_amended (ts : List Segment) (s e : ℕ) (h : e < ts.length) :
    (s < e → assess_content_completeness ts s e =
      min 10 (10 * (countTerminalIn ts s e : ℚ) / ((e - s + 1 : ℕ) : ℚ))) ∧
    (e ≤ s → assess_content_completeness ts s e = 0) := by
  constructor
  · intro hse
    unfold assess_content_completeness countTerminalIn
    rw [if_neg (by omega), if_pos (by omega)]
    have hcount : (List.range' s (e + 1 - s)).countP
        (fun i => decide (i < ts.length) && endsWithTerminal ((ts.getD i default).text)) =
        (List.range' s (e + 1 - s)).countP
        (fun i => endsWithTerminal ((ts.getD i default).text)) := by
      apply List.countP_congr
      intro i hi
      have hmem := List.mem_range'_1.mp hi
      have hlt : i < ts.length := by omega
      simp [hlt]
    rw [hcount]
    congr 1
    ring
  · intro hse
    unfold assess_content_completeness
    rw [if_pos hse]

/-- C5 (witness): the amended statement applied to the two-segment range
    `[0, 1]` of the example transcript. -/
theorem C5_assess_content_completeness_amended_witness :
    (0:ℕ) < 1 ∧ 1 < exTranscript.length ∧
      assess_content_completeness exTranscript 0 1 =
        min 10 (10 * (countTerminalIn exTranscript 0 1 : ℚ) / ((1 - 0 + 1 : ℕ) : ℚ)) :=
  ⟨by decide, by norm_num [exTranscript],
   (C5_assess_content_completeness_amended exTranscript 0 1 (by norm_num [exTranscript])).1
     (by decide)⟩

/-- C6: for every in-range index and boundary type, `assess_boundary_quality`
    equals `min 10 (5 + marker_bonus + pause_bonus)`; the score lies in
    `[0, 10]` for all inputs; and on the example transcript, segment 0 scored
    as a start boundary yields exactly 8 (base 5 + marker 3, no pause bonus
    at the sequence edge). -/
theorem C6_assess_boundary_quality_formula :
    (∀ (ts : List Segment) (idx : ℤ) (btype : String), 0 ≤ idx → idx < (ts.length : ℤ) →
      assess_boundary_quality ts idx btype =
        min 10 (5 + marker_bonus ts idx.toNat btype + pause_bonus ts idx.toNat btype)) ∧
    (∀ (ts : List Segment) (idx : ℤ) (btype : String),
      0 ≤ assess_boundary_quality ts idx btype ∧ assess_boundary_quality ts idx btype ≤ 10) ∧
    assess_boundary_quality exTranscript 0 "start" = 8 := by
  refine ⟨?_, ?_, ?_⟩
  · intro ts idx btype h0 hlen
    simp only [assess_boundary_quality, marker_bonus, pause_bonus]
    rw [if_neg (by omega)]
    split_ifs <;> omega
  · intro ts idx btype
    simp only [assess_boundary_quality]
    split_ifs <;> constructor <;> omega
  · decide

/-- C6 (witness): the formula part of the theorem applied at the example
    transcript, index 0, boundary type `"start"`. -/
theorem C6_assess_boundary_quality_formula_witness :
    (0:ℤ) ≤ 0 ∧ (0:ℤ) < (exTranscript.length : ℤ) ∧
      assess_boundary_quality exTranscript 0 "start" =
        min 10 (5 + marker_bonus exTranscript 0 "start" + pause_bonus exTranscript 0 "start") :=
  ⟨le_refl 0, by norm_num [exTranscript],
   C6_assess_boundary_quality_formula.1 exTranscript 0 "start" (le_refl 0)
     (by norm_num [exTranscript])⟩

/-- C9: `assess_duration_appropriateness` computes the three-branch piecewise
    score; every in-range duration scores at least 5, and below the minimum
    the score can reach 0 (the discontinuity at the configured bounds). -/
theorem C9_assess_duration_appropriateness_formula (minD maxD : ℤ) (d : ℚ) (h : minD < maxD) :
    ((d < (minD : ℚ) → assess_duration_appropriateness minD maxD d =
        max 0 (10 - ((minD : ℚ) - d) * 2)) ∧
     ((maxD : ℚ) < d → assess_duration_appropriateness minD maxD d =
        max 0 (10 - (d - (maxD : ℚ)) * (1/2))) ∧
     ((minD : ℚ) ≤ d ∧ d ≤ (maxD : ℚ) → assess_duration_appropriateness minD maxD d =
        max 5 (10 - |d - ((minD : ℚ) + (maxD : ℚ)) / 2| * (1/2)) ∧
        5 ≤ assess_duration_appropriateness minD maxD d)) ∧
    assess_duration_appropriateness minD maxD ((minD : ℚ) - 5) = 0 ∧ ((minD : ℚ) - 5) < minD := by
  refine ⟨⟨?_, ?_, ?_⟩, ?_, by norm_num⟩
  · intro hd
    unfold assess_duration_appropriateness
    rw [if_pos hd]
  · intro hd
    unfold assess_duration_appropriateness
    have hcast : (minD : ℚ) < (maxD : ℚ) := by exact_mod_cast h
    rw [if_neg (by linarith), if_pos hd]
  · intro hd
    unfold assess_duration_appropriateness
    rw [if_neg (by linarith [hd.1]), if_neg (by linarith [hd.2])]
    exact ⟨rfl, le_max_left 5 _⟩
  · unfold assess_duration_appropriateness
    rw [if_pos (by norm_num)]
    norm_num

/-- C9 (witness): the formula applied at bounds `15 < 90` and duration `20`,
    which lies in range and therefore scores at least 5. -/
theorem C9_assess_duration_appropriateness_formula_witness :
    (15:ℤ) < 90 ∧ ((15:ℤ) : ℚ) ≤ 20 ∧ (20:ℚ) ≤ ((90:ℤ) : ℚ) ∧
      5 ≤ assess_duration_appropriateness 15 90 20 :=
  ⟨by norm_num, by norm_num, by norm_num,
   ((C9_assess_duration_appropriateness_formula 15 90 20 (by norm_num)).1.2.2
     ⟨by norm_num, by norm_num⟩).2⟩

/-- C10: for every in-range segment index and either boundary type,
    `assess_boundary_quality` never returns a score below 5 — the returned
    score lies in `[5, 10]` — and the value 0 is returned exactly for the
    out-of-range indices. -/
theorem C10_assess_boundary_quality_floor (ts : List Segment) (idx : ℤ) (btype : String) :
    ((0 ≤ idx ∧ idx < (ts.length : ℤ)) →
      5 ≤ assess_boundary_quality ts idx btype ∧ assess_boundary_quality ts idx btype ≤ 10) ∧
    (¬(0 ≤ idx ∧ idx < (ts.length : ℤ)) → assess_boundary_quality ts idx btype = 0) := by
  constructor
  · intro hin
    simp only [assess_boundary_quality]
    rw [if_neg (by omega)]
    split_ifs <;> constructor <;> omega
  · intro hout
    simp only [assess_boundary_quality]
    rw [if_pos (by omega)]

/-- C10 (witness): the floor applied at the example transcript, index 0,
    boundary type `"end"`. -/
theorem C10_assess_boundary_quality_floor_witness :
    ((0:ℤ) ≤ 0 ∧ (0:ℤ) < (exTranscript.length : ℤ)) ∧
      5 ≤ assess_boundary_quality exTranscript 0 "end" ∧
      assess_boundary_quality exTranscript 0 "end" ≤ 10 :=
  ⟨⟨le_refl 0, by norm_num [exTranscript]⟩,
   (C10_assess_boundary_quality_floor exTranscript 0 "end").1
     ⟨le_refl 0, by norm_num [exTranscript]⟩⟩

/-- One fallback clip (the non-presentational fields the source writes; the
    formatted `title`/`reason`/`content_summary` strings are omitted). -/
structure FallbackClip where
  start_time : ℚ
  end_time : ℚ
  emotion_score : ℕ
  boundary_confidence : String
  fallback_generated : Bool
deriving DecidableEq, Repr

/-- The configuration values `generate_fallback_clips` reads from the GUI
    state: `max_clips`, `clip_duration`, `smart_duration`,
    `min_clip_duration`, `max_clip_duration` (the latter two as integers,
    matching the source's `int(...)` conversions). -/
structure Config where
  max_clips : ℕ
  clip_duration : ℤ
  smart_duration : Bool
  min_clip_duration : ℤ
  max_clip_duration : ℤ
deriving DecidableEq, Repr

/-- One natural-break point `{'time': …, 'gap': …, 'segment_idx': …}`. -/
structure BreakPoint where
  time : ℚ
  gap : ℚ
  segment_idx : ℕ
deriving DecidableEq, Repr

/-- The break-point collection loop of `find_natural_break_clips`: adjacent
    gaps above 1 second, with the index of the earlier segment. -/
def collectBreakPoints : List Segment → ℕ → List BreakPoint
  | [], _ => []
  | [_], _ => []
  | s :: t :: rest, i =>
    let gap := t.start - s.stop
    if gap > 1 then ⟨s.stop, gap, i⟩ :: collectBreakPoints (t :: rest) (i + 1)
    else collectBreakPoints (t :: rest) (i + 1)

/-- `find_clip_start`: walk backward from the break segment for the first
    segment starting no later than `break_end - min_duration`; fall back to
    `max 0 target`. -/
def find_clip_start (segs : List Segment) (endIdx : ℕ) (minDur : ℤ) : ℚ :=
  let target := (segs.getD endIdx default).stop - (minDur : ℚ)
  match (List.range (endIdx + 1)).reverse.find?
      (fun i => decide ((segs.getD i default).start ≤ target)) with
  | some i => (segs.getD i default).start
  | none => max 0 target

/-- `find_natural_break_clips`: break points sorted by gap size descending
    (stable, like Python's `list.sort(reverse=True)`), top `max_clips` of
    them, each kept only when the resulting duration reaches
    `min_clip_duration`.  (The source also reads `max_clip_duration` but
    never uses it in this tier.) -/
def find_natural_break_clips (segs : List Segment) (maxClips : ℕ) (minDur : ℤ) : List FallbackClip :=
  let break_points := List.insertionSort (fun a b => b.gap ≤ a.gap) (collectBreakPoints segs 0)
  (break_points.take maxClips).filterMap (fun bp =>
    let start_time := find_clip_start segs bp.segment_idx minDur
    let end_time := bp.time
    if (minDur : ℚ) ≤ end_time - start_time then
      some ⟨start_time, end_time, 7, "high", true⟩
    else none)

/-- `adjust_to_segment_boundary`: snap a time to the segment start (or end)
    with minimal absolute distance; Python's `min` keeps the first minimum. -/
def adjust_to_segment_boundary (segs : List Segment) (time : ℚ) (btype : String) : ℚ :=
  match segs with
  | [] => time
  | s0 :: rest =>
    if btype = "start" then
      (rest.foldl (fun best x => if |x.start - time| < |best.start - time| then x else best) s0).start
    else
      (rest.foldl (fun best x => if |x.stop - time| < |best.stop - time| then x else best) s0).stop

/-- `find_fixed_duration_clips`: divide the transcript duration into
    `max_clips` equal intervals of `target_duration`, snap both edges to the
    nearest segment boundary, and drop degenerate intervals. -/
def find_fixed_duration_clips (segs : List Segment) (maxClips : ℕ) (target : ℤ) : List FallbackClip :=
  let total := match segs.getLast? with | some s => s.stop | none => 0
  if total = 0 then []
  else
    let interval := total / (maxClips : ℚ)
    (List.range maxClips).filterMap (fun i =>
      let start0 := (i : ℚ) * interval
      let end0 := min (start0 + (target : ℚ)) total
      let start_time := adjust_to_segment_boundary segs start0 "start"
      let end_time := adjust_to_segment_boundary segs end0 "end"
      if start_time < end_time then some ⟨start_time, end_time, 6, "medium", true⟩ else none)

/-- `create_simple_time_clips`: the naive time split, always emitting
    `max_clips` windows. -/
def create_simple_time_clips (total : ℚ) (maxClips : ℕ) (target : ℤ) : List FallbackClip :=
  (List.range maxClips).map (fun i =>
    let start_time := (i : ℚ) * (total / (maxClips : ℚ))
    let end_time := min (start_time + (target : ℚ)) total
    ⟨start_time, end_time, 5, "low", true⟩)

/-- `generate_fallback_clips`: empty transcript or zero total duration gives
    no clips; otherwise the primary tier is natural-break when
    `smart_duration` is set and fixed-duration otherwise, with the naive time
    split as the only further fallback. -/
def generate_fallback_clips (cfg : Config) (segs : List Segment) : List FallbackClip :=
  let total := match segs.getLast? with | some s => s.stop | none => 0
  if total = 0 then []
  else
    let target : ℤ := if cfg.smart_duration then 60 else cfg.clip_duration
    let fb := if cfg.smart_duration then
        find_natural_break_clips segs cfg.max_clips cfg.min_clip_duration
      else find_fixed_duration_clips segs cfg.max_clips target
    if fb.isEmpty then create_simple_time_clips total cfg.max_clips target else fb

/-- Chain-of-responsibility combinator from the specification: try the tiers
    in order and return the first non-empty result. -/
def first_nonempty_tier : List (List FallbackClip) → List FallbackClip
  | [] => []
  | t :: rest => if t.isEmpty then first_nonempty_tier rest else t

/-- C4 (counterexample): with `smart_duration` set, a transcript with no
    natural breaks (`[{0,2},{2,4}]`, `max_clips = 1`): the natural-break tier
    returns zero clips, the fixed-interval tier would return a (non-empty)
    clip list, yet `generate_fallback_clips` skips it and answers with the
    naive time split — the fixed-interval tier is not attempted. -/
theorem C4_counterexample :
    find_natural_break_clips [⟨0, 2, "a"⟩, ⟨2, 4, "b"⟩] 1 15 = [] ∧
    find_fixed_duration_clips [⟨0, 2, "a"⟩, ⟨2, 4, "b"⟩] 1 60 = [⟨0, 4, 6, "medium", true⟩] ∧
    generate_fallback_clips ⟨1, 60, true, 15, 90⟩ [⟨0, 2, "a"⟩, ⟨2, 4, "b"⟩] =
      [⟨0, 4, 5, "low", true⟩] ∧
    generate_fallback_clips ⟨1, 60, true, 15, 90⟩ [⟨0, 2, "a"⟩, ⟨2, 4, "b"⟩] ≠
      find_fixed_duration_clips [⟨0, 2, "a"⟩, ⟨2, 4, "b"⟩] 1 60 := by
  have hne : ("end" : String) ≠ "start" := by decide
  refine ⟨?_, ?_, ?_, ?_⟩ <;>
    norm_num [find_natural_break_clips, collectBreakPoints, find_clip_start,
      find_fixed_duration_clips, adjust_to_segment_boundary, create_simple_time_clips,
      generate_fallback_clips, first_nonempty_tier, List.insertionSort, List.orderedInsert,
      List.range_succ, List.filterMap_cons, List.filterMap_nil, hne]

/-- C4 (amended): `generate_fallback_clips` is a two-step chain: for a
    transcript with non-zero total duration it tries one primary tier chosen
    by configuration — natural-break when `smart_duration` is set,
    fixed-interval otherwise — and falls back to the naive time split exactly
    when the primary tier returns zero clips; the fixed-interval tier is never
    attempted in smart mode. -/
theorem C4_generate_fallback_clips_amended (cfg : Config) (segs : List Segment) :
    generate_fallback_clips cfg segs =
      (let total := match segs.getLast? with | some s => s.stop | none => 0
       let target : ℤ := if cfg.smart_duration then 60 else cfg.clip_duration
       if total = 0 then []
       else first_nonempty_tier
         [(if cfg.smart_duration then
             find_natural_break_clips segs cfg.max_clips cfg.min_clip_duration
           else find_fixed_duration_clips segs cfg.max_clips target),
          create_simple_time_clips total cfg.max_clips target]) := by
  simp only [generate_fallback_clips, first_nonempty_tier]
  split_ifs <;>
    first
      | rfl
      | exact List.isEmpty_iff.mp (by assumption)

end AiClipper
